import Mathlib

/-!
Verification development for the downloads-organizer scripts
(`organize_downloads_vibed.py` and `downloads_organizer_planned.py`).

The filesystem is shallowly embedded: the target directory is a record of
its top-level regular files (in scan order) together with its immediate
subdirectories and their contained file names.  Pure Python helpers
(`Path.suffix`, `Path.stem`, `str.lower`, f-string decimal rendering)
are translated to executable Lean functions on `String`.
-/

/-- Decimal digit character, `digitChar d` is the character for digit `d`
(mirrors how Python renders each digit of a nonnegative integer). -/
def digitChar (d : Nat) : Char := Char.ofNat (48 + d)

/-- Structural worker for decimal rendering: prepends the digits of `n`
(low-order digit first into `acc`) while consuming fuel, so that the
kernel can evaluate it. -/
def natDigitsCore : Nat → Nat → List Char → List Char
  | 0, _, acc => acc
  | fuel + 1, n, acc =>
    if n < 10 then digitChar (n % 10) :: acc
    else natDigitsCore fuel (n / 10) (digitChar (n % 10) :: acc)

/-- Decimal digit list of a natural number, most significant digit first:
the character sequence an f-string `f"{n}"` produces for a `Nat`. -/
def natDigits (n : Nat) : List Char := natDigitsCore (n + 1) n []

/-- Recursive reference rendering used only to reason about `natDigits`. -/
def natDigitsRec (n : Nat) : List Char :=
  if _h : n < 10 then [digitChar n]
  else natDigitsRec (n / 10) ++ [digitChar (n % 10)]
termination_by n
decreasing_by exact Nat.div_lt_self (by omega) (by omega)

/-- Numeric value of a digit list (left inverse of `natDigits`). -/
def digitsVal (cs : List Char) : Nat :=
  cs.foldl (fun a c => a * 10 + (c.toNat - 48)) 0

/-- Decimal string of a natural number, as an f-string renders it. -/
def natRepr (n : Nat) : String := ⟨natDigits n⟩

/-- Python `str.lower` restricted to the ASCII range actually used by the
scripts' extension tables. -/
def strLower (s : String) : String := ⟨s.data.map Char.toLower⟩

/-- Index of the last '.' in a character list (offset by the accumulator),
`none` when there is no dot.  Helper for `pathlib`'s `name.rfind('.')`. -/
def rfindDotAux : List Char → Nat → Option Nat
  | [], _ => none
  | c :: cs, i =>
    match rfindDotAux cs (i + 1) with
    | some j => some j
    | none => if c = '.' then some i else none

/-- Index of the last '.' in a string, `none` if absent. -/
def rfindDot (s : String) : Option Nat := rfindDotAux s.data 0

/-- Python `Path(name).suffix`: the substring from the last dot onward,
provided that dot is neither the first nor the last character; `""`
otherwise. -/
def suffixOf (s : String) : String :=
  match rfindDot s with
  | some i => if 0 < i ∧ i + 1 < s.data.length then ⟨s.data.drop i⟩ else ""
  | none => ""

/-- Python `Path(name).stem`: the part before the suffix; the whole name
when there is no suffix. -/
def stemOf (s : String) : String :=
  match rfindDot s with
  | some i => if 0 < i ∧ i + 1 < s.data.length then ⟨s.data.take i⟩ else s
  | none => s

/-- State of the target directory: the top-level regular files in the
order the single `iterdir` scan yields them, and the immediate
subdirectories with the names of the files they contain. -/
structure FS where
  files : List String
  dirs : List (String × List String)
deriving DecidableEq

/-- Names of the files inside subdirectory `d` (first entry with that
name; `[]` when the directory does not exist, matching `Path.exists()`
being false for every path inside a nonexistent directory). -/
def dirFiles : List (String × List String) → String → List String
  | [], _ => []
  | p :: rest, d => if p.1 = d then p.2 else dirFiles rest d

/-- Whether subdirectory `d` exists. -/
def hasDir : List (String × List String) → String → Bool
  | [], _ => false
  | p :: rest, d => p.1 = d || hasDir rest d

/-- Append file `f` to the contents of subdirectory `d` (no-op when the
directory is absent; in the modelled runs the directory always exists). -/
def addToDir : List (String × List String) → String → String → List (String × List String)
  | [], _, _ => []
  | p :: rest, d, f => if p.1 = d then (p.1, p.2 ++ [f]) :: rest else p :: addToDir rest d f

/-- Python `Path.mkdir(exist_ok=True)` directly under the target:
create subdirectory `d` when absent, do nothing when present. -/
def FS.mkdirExistOk (fs : FS) (d : String) : FS :=
  if hasDir fs.dirs d then fs else { fs with dirs := fs.dirs ++ [(d, [])] }

/-- Python `shutil.move(str(item), str(destination_path))` for a
top-level file `src` moved into subdirectory `cat` under name `dest`. -/
def FS.moveFile (fs : FS) (src cat dest : String) : FS :=
  { files := fs.files.erase src, dirs := addToDir fs.dirs cat dest }

/-- Candidate destination name `f"{base_name}_{counter}{extension}"`
from the collision-resolution loop. -/
def candName (stem : String) (n : Nat) (ext : String) : String :=
  stem ++ "_" ++ natRepr n ++ ext

namespace Vibed

/-- The static category table of `organize_downloads_vibed.py`
(`get_file_categories`), in Python dict insertion order; each entry maps
a category name to the set of extensions it covers. -/
def file_categories : List (String × List String) :=
  [("Images", [".jpg", ".jpeg", ".png", ".gif", ".bmp", ".tiff", ".svg", ".webp", ".ico"]),
   ("Documents", [".pdf", ".doc", ".docx", ".txt", ".rtf", ".odt", ".pages", ".tex"]),
   ("Spreadsheets", [".xls", ".xlsx", ".csv", ".ods", ".numbers"]),
   ("Presentations", [".ppt", ".pptx", ".odp", ".key"]),
   ("Videos", [".mp4", ".avi", ".mkv", ".mov", ".wmv", ".flv", ".webm", ".m4v"]),
   ("Audio", [".mp3", ".wav", ".flac", ".aac", ".ogg", ".wma", ".m4a"]),
   ("Archives", [".zip", ".rar", ".7z", ".tar", ".gz", ".bz2", ".xz"]),
   ("Executables", [".exe", ".msi", ".deb", ".rpm", ".dmg", ".pkg", ".app"]),
   ("Code", [".py", ".js", ".html", ".css", ".java", ".cpp", ".c", ".php", ".rb", ".go", ".rs"]),
   ("Ebooks", [".epub", ".mobi", ".azw", ".azw3", ".fb2"])]

/-- The `for category, extensions in categories.items()` lookup loop of
`categorize_file`: first category whose extension set contains `e`,
falling back to `"Others"`. -/
def catLookup : List (String × List String) → String → String
  | [], _ => "Others"
  | p :: rest, e => if e ∈ p.2 then p.1 else catLookup rest e

/-- `categorize_file(file_path, categories)`: lowercase the suffix of the
file's name and scan the table. -/
def categorize_file (name : String) : String :=
  catLookup file_categories (strLower (suffixOf name))

/-- `get_downloads_folder()`: prefer `~/Downloads`, then `~/downloads`,
raising (modelled as `none`) when neither exists. -/
def get_downloads_folder (hasUpper hasLower : Bool) : Option String :=
  if hasUpper then some "Downloads"
  else if hasLower then some "downloads"
  else none

/-- `create_category_folders`: `mkdir(exist_ok=True)` for every table
category, then for `"Others"`. -/
def create_category_folders (base : FS) : FS :=
  (file_categories.map (fun p => p.1) ++ ["Others"]).foldl FS.mkdirExistOk base

/-- The `while destination_path.exists()` renaming loop, starting at
counter value `k`: return the first candidate `stem_k.ext`, `stem_k+1.ext`,
… that is not among `occupied`.  The fuel argument only bounds the search;
`searchFrom_spec` shows that with fuel `occupied.length + 1` the loop's
exit condition is reached before fuel runs out, so the function equals
the unbounded loop. -/
def searchFrom (occupied : List String) (stem ext : String) : Nat → Nat → String
  | 0, k => candName stem k ext
  | fuel + 1, k =>
    if candName stem k ext ∈ occupied then searchFrom occupied stem ext fuel (k + 1)
    else candName stem k ext

/-- Destination-name resolution for one file (lines 76–85): keep the
file's own name when free, otherwise run the renaming loop from 1. -/
def resolveDest (occupied : List String) (name stem ext : String) : String :=
  if name ∈ occupied then searchFrom occupied stem ext (occupied.length + 1) 1
  else name

/-- One processed entry: the ephemeral move plan plus whether the move
was actually performed (`false` for dry-run records and failed moves). -/
structure MoveRec where
  src : String
  category : String
  destName : String
  moved : Bool
deriving DecidableEq

/-- The `for item in downloads_folder.iterdir()` loop body over the
scan snapshot, threading the filesystem and the `files_moved` counter
and recording each entry's move plan.  `failList` is the oracle for
which `shutil.move` calls raise (the `except` branch). -/
def organizeLoop (dry_run : Bool) (failList : List String) :
    FS → List String → FS × Nat × List MoveRec
  | fs, [] => (fs, 0, [])
  | fs, item :: rest =>
    let category := categorize_file item
    let destName := resolveDest (dirFiles fs.dirs category) item (stemOf item) (suffixOf item)
    if dry_run then
      let r := organizeLoop dry_run failList fs rest
      (r.1, r.2.1, ⟨item, category, destName, false⟩ :: r.2.2)
    else if item ∈ failList then
      let r := organizeLoop dry_run failList fs rest
      (r.1, r.2.1, ⟨item, category, destName, false⟩ :: r.2.2)
    else
      let r := organizeLoop dry_run failList (fs.moveFile item category destName) rest
      (r.1, r.2.1 + 1, ⟨item, category, destName, true⟩ :: r.2.2)

/-- `organize_downloads(downloads_folder, dry_run)`: create the category
folders unless dry-run, then process the directory snapshot once.
Returns the final directory state, the `files_moved` counter the
summary line prints, and the per-entry records. -/
def organize_downloads (downloads_folder : FS) (dry_run : Bool)
    (failList : List String) : FS × Nat × List MoveRec :=
  let fs1 := if dry_run then downloads_folder else create_category_folders downloads_folder
  organizeLoop dry_run failList fs1 fs1.files

/-- The count reported by the final summary log line
(`"Moved {files_moved} files"` / `"Would move {files_moved} files"`). -/
def files_moved (downloads_folder : FS) (dry_run : Bool) (failList : List String) : Nat :=
  (organize_downloads downloads_folder dry_run failList).2.1

end Vibed

namespace Planned

/-- The `folder_mapping` dict of `downloads_organizer_planned.py`, in
insertion order. -/
def folder_mapping : List (String × String) :=
  [(".pdf", "Documents"), (".jpg", "Images"), (".jpeg", "Images"),
   (".mp4", "Videos"), (".zip", "Archives")]

/-- Dict lookup `folder_mapping[file_ext]` (`file_ext in folder_mapping`
guard plus indexing). -/
def lookupExt : List (String × String) → String → Option String
  | [], _ => none
  | p :: rest, e => if p.1 = e then some p.2 else lookupExt rest e

/-- Whole filesystem view for the planned script: whether the target
directory exists, and its contents when it does. -/
structure World where
  targetExists : Bool
  fs : FS
deriving DecidableEq

/-- Result of one invocation: the final world, the `(folder, name)`
pairs appended to `moved_files` in move order, and whether the run
aborted with the `"Downloads folder not found"` message. -/
structure PlannedOut where
  world : World
  moved : List (String × String)
  notFound : Bool
deriving DecidableEq

/-- The planned script's `for file_path in downloads_path.iterdir()`
loop: move a mapped, non-colliding, non-failing file and record it;
silently skip unmapped extensions and occupied destinations. -/
def plannedLoop (failList : List String) : FS → List String → FS × List (String × String)
  | fs, [] => (fs, [])
  | fs, item :: rest =>
    match lookupExt folder_mapping (strLower (suffixOf item)) with
    | none => plannedLoop failList fs rest
    | some folder =>
      if item ∈ dirFiles fs.dirs folder then plannedLoop failList fs rest
      else if item ∈ failList then plannedLoop failList fs rest
      else
        let r := plannedLoop failList (fs.moveFile item folder item) rest
        (r.1, (folder, item) :: r.2)

/-- `organize_downloads()` of the planned script: abort when the target
directory does not exist; otherwise create the mapped folders
(`for folder_name in folder_mapping.values()`) and process the snapshot. -/
def organize_downloads (failList : List String) (w : World) : PlannedOut :=
  if w.targetExists = false then ⟨w, [], true⟩
  else
    let fs1 := (folder_mapping.map (fun p => p.2)).foldl FS.mkdirExistOk w.fs
    let r := plannedLoop failList fs1 fs1.files
    ⟨⟨true, r.1⟩, r.2, false⟩

/-- `moved_files` dict key set in insertion order (`defaultdict` keys
appear when first written). -/
def insertKey (ks : List String) (k : String) : List String :=
  if k ∈ ks then ks else ks ++ [k]

/-- Keys of the summary dict, in first-move order. -/
def summaryKeys (moved : List (String × String)) : List String :=
  moved.foldl (fun ks m => insertKey ks m.1) []

/-- `len(files)` for one folder's entry of `moved_files`. -/
def folderCount (moved : List (String × String)) (folder : String) : Nat :=
  (moved.filter (fun m => m.1 = folder)).length

/-- The printed `total_moved`: the summary loop's running sum of
`len(files)` over the dict's entries. -/
def total_moved (moved : List (String × String)) : Nat :=
  (summaryKeys moved).foldl (fun t k => t + folderCount moved k) 0

end Planned

/-- Spec-side declarative view of the Category Table: the category of the
first table entry whose extension set contains `e`, if any.  Stated with
`List.find?` independently of the loop-shaped `catLookup`. -/
def extCategory (e : String) : Option String :=
  (Vibed.file_categories.find? (fun p => decide (e ∈ p.2))).map (fun p => p.1)

/-- Number of moves a run actually performed into category `cat`. -/
def movesInto (recs : List Vibed.MoveRec) (cat : String) : Nat :=
  (recs.filter (fun r => r.moved && decide (r.category = cat))).length

theorem natDigitsCore_eq_rec (fuel : Nat) :
    ∀ n acc, n < fuel → natDigitsCore fuel n acc = natDigitsRec n ++ acc := by
  induction fuel with
  | zero => intro n acc h; omega
  | succ f ih =>
    intro n acc h
    by_cases h10 : n < 10
    · rw [natDigitsCore, if_pos h10, natDigitsRec]
      simp [h10, Nat.mod_eq_of_lt h10]
    · rw [natDigitsCore, if_neg h10, ih (n / 10) _ (by omega)]
      conv_rhs => rw [natDigitsRec]
      simp [h10, List.append_assoc]

theorem natDigits_eq_rec (n : Nat) : natDigits n = natDigitsRec n := by
  rw [natDigits, natDigitsCore_eq_rec (n + 1) n [] (by omega), List.append_nil]

theorem toNat_digitChar : ∀ d : Nat, d < 10 → (digitChar d).toNat - 48 = d := by decide

theorem digitsVal_append_singleton (cs : List Char) (c : Char) :
    digitsVal (cs ++ [c]) = digitsVal cs * 10 + (c.toNat - 48) := by
  simp [digitsVal, List.foldl_append]

theorem digitsVal_natDigitsRec (n : Nat) : digitsVal (natDigitsRec n) = n := by
  induction n using Nat.strong_induction_on with
  | _ n ih =>
    by_cases h10 : n < 10
    · rw [natDigitsRec, dif_pos h10]
      simp [digitsVal, toNat_digitChar n h10]
    · rw [natDigitsRec, dif_neg h10]
      rw [digitsVal_append_singleton,
        ih (n / 10) (Nat.div_lt_self (by omega) (by omega)),
        toNat_digitChar (n % 10) (Nat.mod_lt n (by omega))]
      omega

theorem digitsVal_natDigits (n : Nat) : digitsVal (natDigits n) = n := by
  rw [natDigits_eq_rec, digitsVal_natDigitsRec]

theorem natDigits_injective : Function.Injective natDigits := by
  intro m n h
  have := congrArg digitsVal h
  rwa [digitsVal_natDigits, digitsVal_natDigits] at this

theorem natRepr_injective : Function.Injective natRepr := by
  intro m n h
  exact natDigits_injective (congrArg String.data h)

theorem candName_injective (stem ext : String) :
    Function.Injective (fun n => candName stem n ext) := by
  intro m n h
  simp only [candName] at h
  have hd := congrArg String.data h
  simp only [String.data_append] at hd
  have h1 := List.append_cancel_right hd
  have h2 := List.append_cancel_left h1
  exact natRepr_injective (String.ext h2)

theorem dirFiles_eq_nil_of_not_hasDir (dirs : List (String × List String)) (d : String)
    (h : hasDir dirs d = false) : dirFiles dirs d = [] := by
  induction dirs with
  | nil => rfl
  | cons p rest ih =>
    rw [hasDir] at h
    by_cases hp : p.1 = d
    · simp [hp] at h
    · rw [dirFiles, if_neg hp]
      exact ih (by simpa [hp] using h)

theorem hasDir_append (dirs dirs' : List (String × List String)) (d : String) :
    hasDir (dirs ++ dirs') d = (hasDir dirs d || hasDir dirs' d) := by
  induction dirs with
  | nil => simp [hasDir]
  | cons p rest ih => simp [hasDir, ih, Bool.or_assoc]

theorem dirFiles_append_left (dirs dirs' : List (String × List String)) (d : String)
    (h : hasDir dirs' d = false) : dirFiles (dirs ++ dirs') d = dirFiles dirs d := by
  induction dirs with
  | nil => simp [dirFiles, dirFiles_eq_nil_of_not_hasDir dirs' d h]
  | cons p rest ih =>
    by_cases hp : p.1 = d
    · simp [dirFiles, hp]
    · simp only [List.cons_append, dirFiles, if_neg hp]
      exact ih

theorem dirFiles_append_right (dirs dirs' : List (String × List String)) (d : String)
    (h : hasDir dirs d = false) : dirFiles (dirs ++ dirs') d = dirFiles dirs' d := by
  induction dirs with
  | nil => rfl
  | cons p rest ih =>
    rw [hasDir] at h
    by_cases hp : p.1 = d
    · simp [hp] at h
    · simp only [List.cons_append, dirFiles, if_neg hp]
      exact ih (by simpa [hp] using h)

theorem dirFiles_mkdir (fs : FS) (d' d : String) :
    dirFiles ((fs.mkdirExistOk d').dirs) d = dirFiles fs.dirs d := by
  rw [FS.mkdirExistOk]
  by_cases h : hasDir fs.dirs d' = true
  · rw [if_pos h]
  · rw [if_neg h]
    by_cases hd : d' = d
    · subst hd
      show dirFiles (fs.dirs ++ [(d', [])]) d' = dirFiles fs.dirs d'
      rw [dirFiles_eq_nil_of_not_hasDir fs.dirs d' (by simpa using h),
        dirFiles_append_right fs.dirs _ d' (by simpa using h)]
      simp [dirFiles]
    · show dirFiles (fs.dirs ++ [(d', [])]) d = dirFiles fs.dirs d
      apply dirFiles_append_left
      simp [hasDir, hd]

theorem hasDir_mkdir_self (fs : FS) (d : String) :
    hasDir ((fs.mkdirExistOk d).dirs) d = true := by
  rw [FS.mkdirExistOk]
  by_cases h : hasDir fs.dirs d = true
  · rw [if_pos h]; exact h
  · rw [if_neg h]
    show hasDir (fs.dirs ++ [(d, [])]) d = true
    rw [hasDir_append]
    simp [hasDir]

theorem hasDir_mkdir_of_hasDir (fs : FS) (d' d : String) (h : hasDir fs.dirs d = true) :
    hasDir ((fs.mkdirExistOk d').dirs) d = true := by
  rw [FS.mkdirExistOk]
  by_cases hd : hasDir fs.dirs d' = true
  · rw [if_pos hd]; exact h
  · rw [if_neg hd]
    show hasDir (fs.dirs ++ [(d', [])]) d = true
    rw [hasDir_append, h, Bool.true_or]

theorem files_mkdir (fs : FS) (d : String) : (fs.mkdirExistOk d).files = fs.files := by
  rw [FS.mkdirExistOk]
  by_cases h : hasDir fs.dirs d = true
  · rw [if_pos h]
  · rw [if_neg h]

theorem hasDir_addToDir (dirs : List (String × List String)) (c f d : String) :
    hasDir (addToDir dirs c f) d = hasDir dirs d := by
  induction dirs with
  | nil => rfl
  | cons p rest ih =>
    rw [addToDir]
    by_cases hp : p.1 = c
    · rw [if_pos hp]; simp [hasDir]
    · rw [if_neg hp]; simp [hasDir, ih]

theorem dirFiles_addToDir_self (dirs : List (String × List String)) (c f : String)
    (h : hasDir dirs c = true) : dirFiles (addToDir dirs c f) c = dirFiles dirs c ++ [f] := by
  induction dirs with
  | nil => simp [hasDir] at h
  | cons p rest ih =>
    rw [addToDir]
    by_cases hp : p.1 = c
    · rw [if_pos hp]
      simp [dirFiles, hp]
    · rw [if_neg hp, dirFiles, if_neg hp, dirFiles, if_neg hp]
      rw [hasDir] at h
      exact ih (by simpa [hp] using h)

theorem mem_dirFiles_addToDir (dirs : List (String × List String)) (c f d x : String)
    (h : x ∈ dirFiles dirs d) : x ∈ dirFiles (addToDir dirs c f) d := by
  induction dirs with
  | nil => simp [dirFiles] at h
  | cons p rest ih =>
    rw [addToDir]
    by_cases hp : p.1 = c
    · rw [if_pos hp]
      by_cases hd : p.1 = d
      · rw [dirFiles, if_pos hd]
        rw [dirFiles, if_pos hd] at h
        exact List.mem_append_left _ h
      · rw [dirFiles, if_neg hd]
        rwa [dirFiles, if_neg hd] at h
    · rw [if_neg hp]
      by_cases hd : p.1 = d
      · rw [dirFiles, if_pos hd]
        rwa [dirFiles, if_pos hd] at h
      · rw [dirFiles, if_neg hd]
        rw [dirFiles, if_neg hd] at h
        exact ih h

theorem files_foldl_mkdir (l : List String) :
    ∀ fs : FS, (l.foldl FS.mkdirExistOk fs).files = fs.files := by
  induction l with
  | nil => intro fs; rfl
  | cons a l ih => intro fs; rw [List.foldl_cons, ih, files_mkdir]

theorem dirFiles_foldl_mkdir (l : List String) :
    ∀ (fs : FS) (d : String),
      dirFiles ((l.foldl FS.mkdirExistOk fs).dirs) d = dirFiles fs.dirs d := by
  induction l with
  | nil => intro fs d; rfl
  | cons a l ih => intro fs d; rw [List.foldl_cons, ih, dirFiles_mkdir]

theorem hasDir_foldl_mkdir_of_hasDir (l : List String) :
    ∀ (fs : FS) (c : String), hasDir fs.dirs c = true →
      hasDir ((l.foldl FS.mkdirExistOk fs).dirs) c = true := by
  induction l with
  | nil => intro fs c h; exact h
  | cons a l ih =>
    intro fs c h
    rw [List.foldl_cons]
    exact ih _ c (hasDir_mkdir_of_hasDir fs a c h)

theorem hasDir_foldl_mkdir_of_mem (l : List String) :
    ∀ (fs : FS) (c : String), c ∈ l →
      hasDir ((l.foldl FS.mkdirExistOk fs).dirs) c = true := by
  induction l with
  | nil => intro fs c h; simp at h
  | cons a l ih =>
    intro fs c h
    rw [List.foldl_cons]
    rcases List.mem_cons.mp h with rfl | h'
    · exact hasDir_foldl_mkdir_of_hasDir l _ c (hasDir_mkdir_self fs c)
    · exact ih _ c h'

theorem exists_free_cand (occupied : List String) (stem ext : String) (k : Nat) :
    ∃ j, k ≤ j ∧ j < k + (occupied.length + 1) ∧ candName stem j ext ∉ occupied := by
  by_contra hc
  push_neg at hc
  set cands : List String :=
    (List.range' k (occupied.length + 1)).map (fun j => candName stem j ext) with hcands
  have hnd : cands.Nodup :=
    List.Nodup.map (candName_injective stem ext) (List.nodup_range' _ _)
  have hsub : cands.toFinset ⊆ occupied.toFinset := by
    intro x hx
    rw [List.mem_toFinset] at hx ⊢
    rw [hcands, List.mem_map] at hx
    obtain ⟨j, hj, rfl⟩ := hx
    rw [List.mem_range'] at hj
    obtain ⟨i, hi, rfl⟩ := hj
    exact hc _ (by omega) (by omega)
  have h1 : cands.toFinset.card = occupied.length + 1 := by
    rw [List.toFinset_card_of_nodup hnd, hcands, List.length_map, List.length_range']
  have h2 := Finset.card_le_card hsub
  have h3 := List.toFinset_card_le (l := occupied)
  omega

theorem searchFrom_spec (occupied : List String) (stem ext : String) :
    ∀ fuel k, (∃ j, k ≤ j ∧ j < k + fuel ∧ candName stem j ext ∉ occupied) →
      ∃ j, k ≤ j ∧ candName stem j ext ∉ occupied ∧
        Vibed.searchFrom occupied stem ext fuel k = candName stem j ext ∧
        ∀ i, k ≤ i → i < j → candName stem i ext ∈ occupied := by
  intro fuel
  induction fuel with
  | zero =>
    intro k h
    obtain ⟨j, h1, h2, _⟩ := h
    omega
  | succ f ih =>
    intro k h
    obtain ⟨j, hkj, hlt, hfree⟩ := h
    by_cases hk : candName stem k ext ∈ occupied
    · have hne : k ≠ j := fun e => hfree (e ▸ hk)
      obtain ⟨j', h1, h2, h3, h4⟩ := ih (k + 1) ⟨j, by omega, by omega, hfree⟩
      refine ⟨j', by omega, h2, ?_, ?_⟩
      · rw [Vibed.searchFrom, if_pos hk]
        exact h3
      · intro i hi hij
        by_cases hik : i = k
        · subst hik; exact hk
        · exact h4 i (by omega) hij
    · refine ⟨k, Nat.le_refl k, hk, ?_, fun i h1 h2 => absurd h2 (by omega)⟩
      rw [Vibed.searchFrom, if_neg hk]

theorem resolveDest_not_mem (occupied : List String) (name stem ext : String) :
    Vibed.resolveDest occupied name stem ext ∉ occupied := by
  rw [Vibed.resolveDest]
  by_cases h : name ∈ occupied
  · rw [if_pos h]
    obtain ⟨j, _, hfree, heq, _⟩ := searchFrom_spec occupied stem ext (occupied.length + 1) 1
      (exists_free_cand occupied stem ext 1)
    rw [heq]
    exact hfree
  · rw [if_neg h]
    exact h

theorem resolveDest_least (occupied : List String) (name stem ext : String)
    (h : name ∈ occupied) :
    ∃ k, 1 ≤ k ∧ candName stem k ext ∉ occupied ∧
      Vibed.resolveDest occupied name stem ext = candName stem k ext ∧
      ∀ i, 1 ≤ i → i < k → candName stem i ext ∈ occupied := by
  rw [Vibed.resolveDest, if_pos h]
  obtain ⟨j, h1, h2, h3, h4⟩ := searchFrom_spec occupied stem ext (occupied.length + 1) 1
    (exists_free_cand occupied stem ext 1)
  exact ⟨j, h1, h2, h3, h4⟩

theorem resolveDest_of_not_mem (occupied : List String) (name stem ext : String)
    (h : name ∉ occupied) : Vibed.resolveDest occupied name stem ext = name := by
  rw [Vibed.resolveDest, if_neg h]

namespace Vibed

theorem organizeLoop_nil (d : Bool) (f : List String) (fs : FS) :
    organizeLoop d f fs [] = (fs, 0, []) := rfl

theorem organizeLoop_cons_dry (f : List String) (fs : FS) (item : String) (rest : List String) :
    organizeLoop true f fs (item :: rest) =
      ((organizeLoop true f fs rest).1, (organizeLoop true f fs rest).2.1,
        ⟨item, categorize_file item,
          resolveDest (dirFiles fs.dirs (categorize_file item)) item (stemOf item) (suffixOf item),
          false⟩ :: (organizeLoop true f fs rest).2.2) := rfl

theorem organizeLoop_cons_fail (f : List String) (fs : FS) (item : String)
    (rest : List String) (hf : item ∈ f) :
    organizeLoop false f fs (item :: rest) =
      ((organizeLoop false f fs rest).1, (organizeLoop false f fs rest).2.1,
        ⟨item, categorize_file item,
          resolveDest (dirFiles fs.dirs (categorize_file item)) item (stemOf item) (suffixOf item),
          false⟩ :: (organizeLoop false f fs rest).2.2) := by
  rw [organizeLoop]
  simp [hf]

theorem organizeLoop_cons_move (f : List String) (fs : FS) (item : String)
    (rest : List String) (hf : item ∉ f) :
    organizeLoop false f fs (item :: rest) =
      (let category := categorize_file item
       let destName :=
         resolveDest (dirFiles fs.dirs category) item (stemOf item) (suffixOf item)
       let r := organizeLoop false f (fs.moveFile item category destName) rest
       (r.1, r.2.1 + 1, ⟨item, category, destName, true⟩ :: r.2.2)) := by
  rw [organizeLoop]
  simp [hf]

end Vibed

namespace Vibed

theorem loop_srcs (d : Bool) (f : List String) :
    ∀ (items : List String) (fs : FS),
      (organizeLoop d f fs items).2.2.map MoveRec.src = items := by
  intro items
  induction items with
  | nil => intro fs; rfl
  | cons item rest ih =>
    intro fs
    cases d with
    | true => rw [organizeLoop_cons_dry]; simp [ih]
    | false =>
      by_cases hf : item ∈ f
      · rw [organizeLoop_cons_fail f fs item rest hf]; simp [ih]
      · rw [organizeLoop_cons_move f fs item rest hf]; simp [ih]

theorem loop_dry_state (f : List String) :
    ∀ (items : List String) (fs : FS), (organizeLoop true f fs items).1 = fs := by
  intro items
  induction items with
  | nil => intro fs; rfl
  | cons item rest ih => intro fs; rw [organizeLoop_cons_dry]; exact ih fs

theorem loop_dry_notMoved (f : List String) :
    ∀ (items : List String) (fs : FS),
      ∀ r ∈ (organizeLoop true f fs items).2.2, r.moved = false := by
  intro items
  induction items with
  | nil => intro fs r hr; simp [organizeLoop_nil] at hr
  | cons item rest ih =>
    intro fs r hr
    rw [organizeLoop_cons_dry] at hr
    rcases List.mem_cons.mp hr with rfl | hr'
    · rfl
    · exact ih fs r hr'

theorem loop_live_moved_iff (f : List String) :
    ∀ (items : List String) (fs : FS),
      ∀ r ∈ (organizeLoop false f fs items).2.2, (r.moved = true ↔ r.src ∉ f) := by
  intro items
  induction items with
  | nil => intro fs r hr; simp [organizeLoop_nil] at hr
  | cons item rest ih =>
    intro fs r hr
    by_cases hf : item ∈ f
    · rw [organizeLoop_cons_fail f fs item rest hf] at hr
      rcases List.mem_cons.mp hr with rfl | hr'
      · simpa using hf
      · exact ih fs r hr'
    · rw [organizeLoop_cons_move f fs item rest hf] at hr
      rcases List.mem_cons.mp hr with rfl | hr'
      · simpa using hf
      · exact ih _ r hr'

theorem loop_count_eq (d : Bool) (f : List String) :
    ∀ (items : List String) (fs : FS),
      (organizeLoop d f fs items).2.1 =
        ((organizeLoop d f fs items).2.2.filter (fun r => r.moved)).length := by
  intro items
  induction items with
  | nil => intro fs; rfl
  | cons item rest ih =>
    intro fs
    cases d with
    | true => rw [organizeLoop_cons_dry]; simp [ih, List.filter]
    | false =>
      by_cases hf : item ∈ f
      · rw [organizeLoop_cons_fail f fs item rest hf]; simp [ih, List.filter]
      · rw [organizeLoop_cons_move f fs item rest hf]; simp [ih, List.filter]

theorem loop_live_count (f : List String) :
    ∀ (items : List String) (fs : FS),
      (organizeLoop false f fs items).2.1 =
        (items.filter (fun s => decide (s ∉ f))).length := by
  intro items
  induction items with
  | nil => intro fs; rfl
  | cons item rest ih =>
    intro fs
    by_cases hf : item ∈ f
    · rw [organizeLoop_cons_fail f fs item rest hf]
      simp only [List.filter]
      simp [hf, ih]
    · rw [organizeLoop_cons_move f fs item rest hf]
      simp only [List.filter]
      simp [hf, ih]

end Vibed

namespace Vibed

theorem loop_files_subset (d : Bool) (f : List String) :
    ∀ (items : List String) (fs : FS) (x : String),
      x ∈ (organizeLoop d f fs items).1.files → x ∈ fs.files := by
  intro items
  induction items with
  | nil => intro fs x h; exact h
  | cons item rest ih =>
    intro fs x h
    cases d with
    | true => rw [organizeLoop_cons_dry] at h; exact ih fs x h
    | false =>
      by_cases hf : item ∈ f
      · rw [organizeLoop_cons_fail f fs item rest hf] at h
        exact ih fs x h
      · rw [organizeLoop_cons_move f fs item rest hf] at h
        have := ih _ x h
        exact (List.erase_sublist item fs.files).mem this

theorem loop_dirFiles_mono (d : Bool) (f : List String) :
    ∀ (items : List String) (fs : FS) (dd x : String),
      x ∈ dirFiles fs.dirs dd → x ∈ dirFiles (organizeLoop d f fs items).1.dirs dd := by
  intro items
  induction items with
  | nil => intro fs dd x h; exact h
  | cons item rest ih =>
    intro fs dd x h
    cases d with
    | true => rw [organizeLoop_cons_dry]; exact ih fs dd x h
    | false =>
      by_cases hf : item ∈ f
      · rw [organizeLoop_cons_fail f fs item rest hf]
        exact ih fs dd x h
      · rw [organizeLoop_cons_move f fs item rest hf]
        exact ih _ dd x (mem_dirFiles_addToDir fs.dirs _ _ dd x h)

theorem loop_hasDir (d : Bool) (f : List String) :
    ∀ (items : List String) (fs : FS) (dd : String),
      hasDir (organizeLoop d f fs items).1.dirs dd = hasDir fs.dirs dd := by
  intro items
  induction items with
  | nil => intro fs dd; rfl
  | cons item rest ih =>
    intro fs dd
    cases d with
    | true => rw [organizeLoop_cons_dry]; exact ih fs dd
    | false =>
      by_cases hf : item ∈ f
      · rw [organizeLoop_cons_fail f fs item rest hf]
        exact ih fs dd
      · rw [organizeLoop_cons_move f fs item rest hf]
        rw [ih]
        exact hasDir_addToDir fs.dirs _ _ dd

theorem loop_moved_dest_free (f : List String) :
    ∀ (items : List String) (fs : FS),
      ∀ r ∈ (organizeLoop false f fs items).2.2,
        r.moved = true → r.destName ∉ dirFiles fs.dirs r.category := by
  intro items
  induction items with
  | nil => intro fs r hr; simp [organizeLoop_nil] at hr
  | cons item rest ih =>
    intro fs r hr hm
    by_cases hf : item ∈ f
    · rw [organizeLoop_cons_fail f fs item rest hf] at hr
      rcases List.mem_cons.mp hr with rfl | hr'
      · simp at hm
      · exact ih fs r hr' hm
    · rw [organizeLoop_cons_move f fs item rest hf] at hr
      rcases List.mem_cons.mp hr with rfl | hr'
      · exact resolveDest_not_mem _ _ _ _
      · intro hmem
        exact ih _ r hr' hm (mem_dirFiles_addToDir fs.dirs _ _ _ _ hmem)

theorem loop_fail_stays (f : List String) :
    ∀ (items : List String) (fs : FS) (x : String),
      x ∈ f → x ∈ fs.files → x ∈ (organizeLoop false f fs items).1.files := by
  intro items
  induction items with
  | nil => intro fs x _ h; exact h
  | cons item rest ih =>
    intro fs x hx h
    by_cases hf : item ∈ f
    · rw [organizeLoop_cons_fail f fs item rest hf]
      exact ih fs x hx h
    · rw [organizeLoop_cons_move f fs item rest hf]
      apply ih _ x hx
      show x ∈ fs.files.erase item
      have hne : x ≠ item := fun e => hf (e ▸ hx)
      exact (List.mem_erase_of_ne hne).mpr h

theorem loop_moved_src_gone (f : List String) :
    ∀ (items : List String) (fs : FS), fs.files.Nodup →
      ∀ r ∈ (organizeLoop false f fs items).2.2,
        r.moved = true → r.src ∉ (organizeLoop false f fs items).1.files := by
  intro items
  induction items with
  | nil => intro fs _ r hr; simp [organizeLoop_nil] at hr
  | cons item rest ih =>
    intro fs hnd r hr hm
    by_cases hf : item ∈ f
    · rw [organizeLoop_cons_fail f fs item rest hf] at hr ⊢
      rcases List.mem_cons.mp hr with rfl | hr'
      · simp at hm
      · exact ih fs hnd r hr' hm
    · rw [organizeLoop_cons_move f fs item rest hf] at hr ⊢
      rcases List.mem_cons.mp hr with rfl | hr'
      · intro hmem
        have h1 := loop_files_subset false f rest _ _ hmem
        exact hnd.not_mem_erase h1
      · exact ih _ (hnd.erase item) r hr' hm

end Vibed

namespace Vibed

theorem catLookup_mem (table : List (String × List String)) (e : String) :
    catLookup table e ∈ table.map (fun p => p.1) ++ ["Others"] := by
  induction table with
  | nil => simp [catLookup]
  | cons p rest ih =>
    rw [catLookup]
    by_cases hp : e ∈ p.2
    · rw [if_pos hp]; simp
    · rw [if_neg hp]
      simp only [List.map_cons, List.cons_append, List.mem_cons]
      exact Or.inr ih

theorem categorize_mem (name : String) :
    categorize_file name ∈ file_categories.map (fun p => p.1) ++ ["Others"] :=
  catLookup_mem file_categories (strLower (suffixOf name))

theorem create_files (fs : FS) : (create_category_folders fs).files = fs.files :=
  files_foldl_mkdir _ fs

theorem create_dirFiles (fs : FS) (d : String) :
    dirFiles (create_category_folders fs).dirs d = dirFiles fs.dirs d :=
  dirFiles_foldl_mkdir _ fs d

theorem create_hasDir_cat (fs : FS) (name : String) :
    hasDir (create_category_folders fs).dirs (categorize_file name) = true :=
  hasDir_foldl_mkdir_of_mem _ fs _ (categorize_mem name)

theorem loop_moved_dest_in_final (f : List String) :
    ∀ (items : List String) (fs : FS),
      (∀ s, hasDir fs.dirs (categorize_file s) = true) →
      ∀ r ∈ (organizeLoop false f fs items).2.2,
        r.moved = true → r.destName ∈ dirFiles (organizeLoop false f fs items).1.dirs r.category := by
  intro items
  induction items with
  | nil => intro fs _ r hr; simp [organizeLoop_nil] at hr
  | cons item rest ih =>
    intro fs hd r hr hm
    by_cases hf : item ∈ f
    · rw [organizeLoop_cons_fail f fs item rest hf] at hr ⊢
      rcases List.mem_cons.mp hr with rfl | hr'
      · simp at hm
      · exact ih fs hd r hr' hm
    · rw [organizeLoop_cons_move f fs item rest hf] at hr ⊢
      rcases List.mem_cons.mp hr with rfl | hr'
      · apply loop_dirFiles_mono
        show _ ∈ dirFiles (addToDir fs.dirs (categorize_file item) _) (categorize_file item)
        rw [dirFiles_addToDir_self fs.dirs _ _ (hd item)]
        simp
      · apply ih _ _ r hr' hm
        intro s
        show hasDir (addToDir fs.dirs _ _) (categorize_file s) = true
        rw [hasDir_addToDir]
        exact hd s

theorem loop_pairwise (f : List String) :
    ∀ (items : List String) (fs : FS),
      (∀ s, hasDir fs.dirs (categorize_file s) = true) →
      (organizeLoop false f fs items).2.2.Pairwise
        (fun r1 r2 => r1.moved = true → r2.moved = true →
          r1.category = r2.category → r1.destName ≠ r2.destName) := by
  intro items
  induction items with
  | nil => intro fs _; simp [organizeLoop_nil]
  | cons item rest ih =>
    intro fs hd
    by_cases hf : item ∈ f
    · rw [organizeLoop_cons_fail f fs item rest hf]
      refine List.Pairwise.cons ?_ (ih fs hd)
      intro r2 _ hm1 _ _
      simp at hm1
    · rw [organizeLoop_cons_move f fs item rest hf]
      have hd1 : ∀ s, hasDir (fs.moveFile item (categorize_file item)
          (resolveDest (dirFiles fs.dirs (categorize_file item)) item (stemOf item)
            (suffixOf item))).dirs (categorize_file s) = true := by
        intro s
        show hasDir (addToDir fs.dirs _ _) (categorize_file s) = true
        rw [hasDir_addToDir]
        exact hd s
      refine List.Pairwise.cons ?_ (ih _ hd1)
      intro r2 hr2 _ hm2 hcat hdest
      have h2 := loop_moved_dest_free f rest _ r2 hr2 hm2
      apply h2
      rw [← hcat, ← hdest]
      show _ ∈ dirFiles (addToDir fs.dirs (categorize_file item) _) (categorize_file item)
      rw [dirFiles_addToDir_self fs.dirs _ _ (hd item)]
      simp

end Vibed

namespace Planned

theorem insertKey_nodup (ks : List String) (k : String) (h : ks.Nodup) :
    (insertKey ks k).Nodup := by
  rw [insertKey]
  by_cases hk : k ∈ ks
  · rw [if_pos hk]; exact h
  · rw [if_neg hk]
    simpa using List.Nodup.append h (List.nodup_singleton k) (by simpa using hk)

theorem mem_insertKey_self (ks : List String) (k : String) : k ∈ insertKey ks k := by
  rw [insertKey]
  by_cases hk : k ∈ ks
  · rw [if_pos hk]; exact hk
  · rw [if_neg hk]; simp

theorem mem_insertKey_of_mem (ks : List String) (k x : String) (h : x ∈ ks) :
    x ∈ insertKey ks k := by
  rw [insertKey]
  by_cases hk : k ∈ ks
  · rw [if_pos hk]; exact h
  · rw [if_neg hk]; exact List.mem_append_left _ h

theorem foldl_insertKey_nodup (l : List (String × String)) :
    ∀ ks : List String, ks.Nodup → (l.foldl (fun ks m => insertKey ks m.1) ks).Nodup := by
  induction l with
  | nil => intro ks h; exact h
  | cons m l ih => intro ks h; exact ih _ (insertKey_nodup ks m.1 h)

theorem mem_foldl_insertKey_of_mem (l : List (String × String)) :
    ∀ (ks : List String) (x : String), x ∈ ks →
      x ∈ l.foldl (fun ks m => insertKey ks m.1) ks := by
  induction l with
  | nil => intro ks x h; exact h
  | cons m l ih => intro ks x h; exact ih _ x (mem_insertKey_of_mem ks m.1 x h)

theorem mem_foldl_insertKey (l : List (String × String)) :
    ∀ (ks : List String) (m : String × String), m ∈ l →
      m.1 ∈ l.foldl (fun ks m => insertKey ks m.1) ks := by
  induction l with
  | nil => intro ks m h; simp at h
  | cons m0 l ih =>
    intro ks m h
    rcases List.mem_cons.mp h with rfl | h'
    · exact mem_foldl_insertKey_of_mem l _ m.1 (mem_insertKey_self ks m.1)
    · exact ih _ m h'

theorem summaryKeys_nodup (moved : List (String × String)) : (summaryKeys moved).Nodup :=
  foldl_insertKey_nodup moved [] List.nodup_nil

theorem mem_summaryKeys (moved : List (String × String)) (m : String × String)
    (h : m ∈ moved) : m.1 ∈ summaryKeys moved :=
  mem_foldl_insertKey moved [] m h

theorem folderCount_cons (m : String × String) (l : List (String × String)) (k : String) :
    folderCount (m :: l) k = folderCount l k + if m.1 = k then 1 else 0 := by
  rw [folderCount, folderCount, List.filter]
  by_cases hm : m.1 = k
  · simp [hm]
  · simp [hm]

theorem sum_indicator (a : String) :
    ∀ ks : List String, ks.Nodup → a ∈ ks →
      (ks.map (fun k => if a = k then 1 else 0)).sum = 1 := by
  intro ks
  induction ks with
  | nil => intro _ h; simp at h
  | cons k ks ih =>
    intro hnd ha
    rcases List.mem_cons.mp ha with rfl | h'
    · have hnot : a ∉ ks := (List.nodup_cons.mp hnd).1
      have : (ks.map (fun k => if a = k then 1 else 0)).sum = 0 := by
        rw [List.sum_eq_zero]
        intro x hx
        rw [List.mem_map] at hx
        obtain ⟨k', hk', rfl⟩ := hx
        have : a ≠ k' := fun e => hnot (e ▸ hk')
        simp [this]
      simp [this]
    · have hne : k ≠ a := by
        intro e
        exact (List.nodup_cons.mp hnd).1 (e ▸ h')
      rw [List.map_cons, List.sum_cons, ih (List.nodup_cons.mp hnd).2 h',
        if_neg (Ne.symm hne)]

theorem sum_folderCount (ks : List String) (hnd : ks.Nodup) :
    ∀ l : List (String × String), (∀ m ∈ l, m.1 ∈ ks) →
      (ks.map (folderCount l)).sum = l.length := by
  intro l
  induction l with
  | nil =>
    intro _
    rw [List.sum_eq_zero]
    · rfl
    · intro x hx
      rw [List.mem_map] at hx
      obtain ⟨k, _, rfl⟩ := hx
      rfl
  | cons m l ih =>
    intro hmem
    have h1 : (ks.map (folderCount (m :: l))).sum =
        (ks.map (folderCount l)).sum + (ks.map (fun k => if m.1 = k then 1 else 0)).sum := by
      rw [← List.sum_map_add]
      congr 1
      exact List.map_congr_left (fun k _ => folderCount_cons m l k)
    rw [h1, ih (fun x hx => hmem x (List.mem_cons_of_mem m hx)),
      sum_indicator m.1 ks hnd (hmem m (List.mem_cons_self m l))]
    simp [Nat.add_comm]

theorem foldl_add_eq_sum (g : String → Nat) :
    ∀ (l : List String) (n : Nat), l.foldl (fun t k => t + g k) n = n + (l.map g).sum := by
  intro l
  induction l with
  | nil => intro n; simp
  | cons k l ih => intro n; rw [List.foldl_cons, ih, List.map_cons, List.sum_cons]; omega

theorem total_moved_eq_length (moved : List (String × String)) :
    total_moved moved = moved.length := by
  rw [total_moved, foldl_add_eq_sum, Nat.zero_add]
  exact sum_folderCount (summaryKeys moved) (summaryKeys_nodup moved) moved
    (fun m hm => mem_summaryKeys moved m hm)

end Planned

theorem catLookup_eq_find (e : String) :
    ∀ table : List (String × List String),
      (∀ cat, (table.find? (fun p => decide (e ∈ p.2))).map (fun p => p.1) = some cat →
        Vibed.catLookup table e = cat) ∧
      ((table.find? (fun p => decide (e ∈ p.2))).map (fun p => p.1) = none →
        Vibed.catLookup table e = "Others") := by
  intro table
  induction table with
  | nil =>
    refine ⟨?_, ?_⟩
    · intro cat h
      simp [List.find?] at h
    · intro _
      rfl
  | cons p rest ih =>
    by_cases hp : e ∈ p.2
    · rw [List.find?_cons_of_pos _ (by simpa using hp)]
      refine ⟨?_, ?_⟩
      · intro cat h
        simp only [Option.map_some'] at h
        rw [Vibed.catLookup, if_pos hp]
        exact Option.some_inj.mp h
      · intro h
        simp at h
    · rw [List.find?_cons_of_neg _ (by simpa using hp)]
      refine ⟨?_, ?_⟩
      · intro cat h
        rw [Vibed.catLookup, if_neg hp]
        exact ih.1 cat h
      · intro h
        rw [Vibed.catLookup, if_neg hp]
        exact ih.2 h

/-- C1: every regular file's extension is derived case-folded and looked
up in the Category Table; a mapped (lowercased) extension yields the
table's category, an unmapped one yields the fallback `"Others"`; the
classification depends only on the case-folded extension, and its result
is always either a table category or `"Others"` (no error case). -/
theorem claim_c01 (name : String) :
    (∀ cat, extCategory (strLower (suffixOf name)) = some cat →
      Vibed.categorize_file name = cat) ∧
    (extCategory (strLower (suffixOf name)) = none →
      Vibed.categorize_file name = "Others") ∧
    (∀ other, strLower (suffixOf other) = strLower (suffixOf name) →
      Vibed.categorize_file other = Vibed.categorize_file name) ∧
    (Vibed.categorize_file name = "Others" ∨
      ∃ p ∈ Vibed.file_categories, Vibed.categorize_file name = p.1) := by
  refine ⟨?_, ?_, ?_, ?_⟩
  · intro cat h
    exact (catLookup_eq_find (strLower (suffixOf name)) Vibed.file_categories).1 cat h
  · intro h
    exact (catLookup_eq_find (strLower (suffixOf name)) Vibed.file_categories).2 h
  · intro other h
    rw [Vibed.categorize_file, Vibed.categorize_file, h]
  · have := Vibed.categorize_mem name
    rw [List.mem_append] at this
    rcases this with h | h
    · rw [List.mem_map] at h
      obtain ⟨p, hp, he⟩ := h
      exact Or.inr ⟨p, hp, he.symm⟩
    · exact Or.inl (by simpa using h)

/-- Witness for C1 at concrete inputs: `.JPG` maps to `Images` through
case folding, `.xyz` falls back to `Others`. -/
theorem claim_c01_wit :
    Vibed.categorize_file "photo.JPG" = "Images" ∧
    Vibed.categorize_file "unknown.xyz" = "Others" := by
  constructor
  · exact (claim_c01 "photo.JPG").1 "Images" (by decide)
  · exact (claim_c01 "unknown.xyz").2.1 (by decide)

/-- C10: collision resolution is total — the resolved destination is
never an occupied name, and for every finite occupied set some candidate
`stem_N.ext` with `N ≥ 1` is free. -/
theorem claim_c10 (occupied : List String) (name stem ext : String) :
    Vibed.resolveDest occupied name stem ext ∉ occupied ∧
    ∃ n, 1 ≤ n ∧ candName stem n ext ∉ occupied := by
  refine ⟨resolveDest_not_mem occupied name stem ext, ?_⟩
  obtain ⟨j, h1, _, h3⟩ := exists_free_cand occupied stem ext 1
  exact ⟨j, h1, h3⟩

theorem organize_live (fs : FS) (failList : List String) :
    Vibed.organize_downloads fs false failList =
      Vibed.organizeLoop false failList (Vibed.create_category_folders fs)
        (Vibed.create_category_folders fs).files := rfl

theorem organize_dry (fs : FS) (failList : List String) :
    Vibed.organize_downloads fs true failList =
      Vibed.organizeLoop true failList fs fs.files := rfl

/-- C2: in a live run the Organizer never overwrites — when the computed
destination name is occupied, the resolved name is a free candidate
`stem_k.ext` with `k ≥ 1` and every earlier candidate occupied (the first
free one); every move the run performs targets a name that was not a
pre-existing destination file; and every pre-existing file of every
category folder is still there after the run. -/
theorem claim_c02 (failList : List String) (fs : FS) (occupied : List String)
    (name stem ext : String) (hocc : name ∈ occupied) :
    (Vibed.resolveDest occupied name stem ext ∉ occupied ∧
      ∃ k, 1 ≤ k ∧ Vibed.resolveDest occupied name stem ext = candName stem k ext ∧
        ∀ i, 1 ≤ i → i < k → candName stem i ext ∈ occupied) ∧
    (∀ r ∈ (Vibed.organize_downloads fs false failList).2.2, r.moved = true →
      r.destName ∉ dirFiles fs.dirs r.category) ∧
    (∀ d x, x ∈ dirFiles fs.dirs d →
      x ∈ dirFiles (Vibed.organize_downloads fs false failList).1.dirs d) := by
  refine ⟨?_, ?_, ?_⟩
  · obtain ⟨k, h1, h2, h3, h4⟩ := resolveDest_least occupied name stem ext hocc
    exact ⟨resolveDest_not_mem occupied name stem ext, k, h1, h3, h4⟩
  · intro r hr hm
    rw [organize_live] at hr
    have := Vibed.loop_moved_dest_free failList
      (Vibed.create_category_folders fs).files (Vibed.create_category_folders fs) r hr hm
    rwa [Vibed.create_dirFiles] at this
  · intro d x hx
    rw [organize_live]
    exact Vibed.loop_dirFiles_mono false failList _ _ d x
      (by rwa [Vibed.create_dirFiles])

/-- Witness for C2 at concrete inputs: with `a.txt` occupied the file
resolves to the free candidate `a_1.txt`, and a pre-existing destination
file `x.pdf` survives a live run untouched. -/
theorem claim_c02_wit :
    Vibed.resolveDest ["a.txt"] "a.txt" "a" ".txt" ∉ ["a.txt"] ∧
    "x.pdf" ∈ dirFiles
      (Vibed.organize_downloads ⟨[], [("Documents", ["x.pdf"])]⟩ false []).1.dirs
      "Documents" := by
  refine ⟨(claim_c02 [] ⟨[], [("Documents", ["x.pdf"])]⟩ ["a.txt"] "a.txt" "a" ".txt"
    (by decide)).1.1, ?_⟩
  exact (claim_c02 [] ⟨[], [("Documents", ["x.pdf"])]⟩ ["a.txt"] "a.txt" "a" ".txt"
    (by decide)).2.2 "Documents" "x.pdf" (by decide)

/-- C3 counterexample: the claim asserts in-pass collision tracking for
every run including dry runs, but in a dry run over top-level files
`a.txt` and `a_1.txt` with `Documents/a.txt` already on disk, both files
are resolved to the same destination `Documents/a_1.txt`. -/
theorem claim_c03_cex :
    (Vibed.organize_downloads ⟨["a.txt", "a_1.txt"], [("Documents", ["a.txt"])]⟩
        true []).2.2.map (fun r => (r.src, r.category, r.destName)) =
      [("a.txt", "Documents", "a_1.txt"), ("a_1.txt", "Documents", "a_1.txt")] := by
  decide

/-- C3 (amended): in a live run, any two moves the Organizer actually
performs have distinct destinations whenever they land in the same
category folder (each move materialises its destination on disk before
the next file is resolved); in dry-run mode the code consults only the
on-disk state, so two files may resolve to the same destination name. -/
theorem claim_c03 (failList : List String) (fs : FS) :
    (Vibed.organize_downloads fs false failList).2.2.Pairwise
      (fun r1 r2 => r1.moved = true → r2.moved = true →
        r1.category = r2.category → r1.destName ≠ r2.destName) := by
  rw [organize_live]
  exact Vibed.loop_pairwise failList _ _ (fun s => Vibed.create_hasDir_cat fs s)

/-- C4: evaluation of the dry-run summary bug — the `files_moved`
counter is only incremented in the live branch, so every dry run reports
`0` would-moves, while the live run on the same state moves the files
the dry run enumerated. -/
theorem claim_c04 :
    (∀ (fs : FS) (failList : List String), Vibed.files_moved fs true failList = 0) ∧
    Vibed.files_moved ⟨["a.txt"], []⟩ true [] = 0 ∧
    (Vibed.organize_downloads ⟨["a.txt"], []⟩ true []).2.2.length = 1 ∧
    Vibed.files_moved ⟨["a.txt"], []⟩ false [] = 1 := by
  refine ⟨?_, by decide, by decide, by decide⟩
  intro fs failList
  rw [Vibed.files_moved, organize_dry]
  rw [Vibed.loop_count_eq]
  rw [List.length_eq_zero]
  rw [List.filter_eq_nil_iff]
  intro r hr
  have := Vibed.loop_dry_notMoved failList _ _ r hr
  simp [this]

/-- C5: a dry run performs no filesystem mutation — the directory state
returned by the run equals the input state exactly (no folder created,
no file moved), for every input state. -/
theorem claim_c05 (fs : FS) (failList : List String) :
    (Vibed.organize_downloads fs true failList).1 = fs := by
  rw [organize_dry]
  exact Vibed.loop_dry_state failList fs.files fs

/-- C6 counterexample: the vibed organizer's end-of-run summary reports
only the single counter `files_moved`; two runs with identical reported
summaries differ in their per-category move breakdown, so the summary
does not contain a per-category breakdown. -/
theorem claim_c06_cex :
    Vibed.files_moved ⟨["r.pdf"], []⟩ false [] = Vibed.files_moved ⟨["p.jpg"], []⟩ false [] ∧
    movesInto (Vibed.organize_downloads ⟨["r.pdf"], []⟩ false []).2.2 "Documents" ≠
      movesInto (Vibed.organize_downloads ⟨["p.jpg"], []⟩ false []).2.2 "Documents" := by
  exact ⟨by decide, by decide⟩

/-- C6 (amended): the planned organizer's summary reports both a
per-category breakdown and a total, and the printed total — computed by
summing `len(files)` over the `moved_files` dict — equals the number of
files the run actually moved, every move being represented under its
category key; the vibed organizer's summary reports only the total. -/
theorem claim_c06 (failList : List String) (w : Planned.World) :
    Planned.total_moved (Planned.organize_downloads failList w).moved =
        (Planned.organize_downloads failList w).moved.length ∧
    ∀ m ∈ (Planned.organize_downloads failList w).moved,
      m.1 ∈ Planned.summaryKeys (Planned.organize_downloads failList w).moved := by
  exact ⟨Planned.total_moved_eq_length _, fun m hm => Planned.mem_summaryKeys _ m hm⟩

/-- C7: a run against a nonexistent target directory fails with the
directory-not-found condition before performing any work — the world is
returned unchanged, no folder is created and no file is moved; the vibed
script's resolver likewise raises when neither downloads folder exists. -/
theorem claim_c07 (failList : List String) (w : Planned.World)
    (h : w.targetExists = false) :
    Planned.organize_downloads failList w = ⟨w, [], true⟩ ∧
    Vibed.get_downloads_folder false false = none := by
  constructor
  · rw [Planned.organize_downloads, if_pos h]
  · rfl

/-- Witness for C7 at a concrete nonexistent-directory world. -/
theorem claim_c07_wit :
    Planned.organize_downloads [] ⟨false, ⟨["a.txt"], []⟩⟩ =
      ⟨⟨false, ⟨["a.txt"], []⟩⟩, [], true⟩ :=
  (claim_c07 [] ⟨false, ⟨["a.txt"], []⟩⟩ rfl).1

/-- C8: in a live run a single file's move failure is never fatal —
every snapshot entry is processed (the records enumerate exactly the
scanned files), a record is a performed move exactly when its file is
not a failing one, every failing file stays at the top level, and the
reported moved-count counts exactly the non-failing files. -/
theorem claim_c08 (failList : List String) (fs : FS) :
    ((Vibed.organize_downloads fs false failList).2.2.map Vibed.MoveRec.src = fs.files) ∧
    (∀ r ∈ (Vibed.organize_downloads fs false failList).2.2,
      (r.moved = true ↔ r.src ∉ failList)) ∧
    (∀ r ∈ (Vibed.organize_downloads fs false failList).2.2, r.src ∈ failList →
      r.src ∈ (Vibed.organize_downloads fs false failList).1.files) ∧
    Vibed.files_moved fs false failList =
      (fs.files.filter (fun s => decide (s ∉ failList))).length := by
  refine ⟨?_, ?_, ?_, ?_⟩
  · rw [organize_live, Vibed.loop_srcs, Vibed.create_files]
  · intro r hr
    rw [organize_live] at hr
    exact Vibed.loop_live_moved_iff failList _ _ r hr
  · intro r hr hrf
    rw [organize_live] at hr ⊢
    have hsrc : r.src ∈ (Vibed.create_category_folders fs).files := by
      rw [← Vibed.loop_srcs false failList (Vibed.create_category_folders fs).files
        (Vibed.create_category_folders fs)]
      exact List.mem_map_of_mem Vibed.MoveRec.src hr
    exact Vibed.loop_fail_stays failList _ _ r.src hrf hsrc
  · rw [Vibed.files_moved, organize_live, Vibed.loop_live_count, Vibed.create_files]

/-- C9: running the live mode twice in a row is idempotent in intent —
every file the first run successfully moved is no longer a top-level
entry afterwards, the second run processes none of those files, and the
moved file is still at its destination after the second run. -/
theorem claim_c09 (fail1 fail2 : List String) (fs : FS) (hnd : fs.files.Nodup) :
    ∀ r ∈ (Vibed.organize_downloads fs false fail1).2.2, r.moved = true →
      r.src ∉ (Vibed.organize_downloads fs false fail1).1.files ∧
      (∀ r2 ∈ (Vibed.organize_downloads
          (Vibed.organize_downloads fs false fail1).1 false fail2).2.2,
        r2.src ≠ r.src) ∧
      r.destName ∈ dirFiles (Vibed.organize_downloads
          (Vibed.organize_downloads fs false fail1).1 false fail2).1.dirs r.category := by
  intro r hr hm
  have hnd1 : (Vibed.create_category_folders fs).files.Nodup := by
    rw [Vibed.create_files]; exact hnd
  rw [organize_live] at hr
  have hgone : r.src ∉ (Vibed.organize_downloads fs false fail1).1.files := by
    rw [organize_live]
    exact Vibed.loop_moved_src_gone fail1 _ _ hnd1 r hr hm
  refine ⟨hgone, ?_, ?_⟩
  · intro r2 hr2
    rw [organize_live] at hr2
    have hsrc2 : r2.src ∈ (Vibed.create_category_folders
        (Vibed.organize_downloads fs false fail1).1).files := by
      rw [← Vibed.loop_srcs false fail2 (Vibed.create_category_folders
        (Vibed.organize_downloads fs false fail1).1).files]
      exact List.mem_map_of_mem Vibed.MoveRec.src hr2
    rw [Vibed.create_files] at hsrc2
    intro he
    exact hgone (he ▸ hsrc2)
  · have hdest1 : r.destName ∈
        dirFiles (Vibed.organize_downloads fs false fail1).1.dirs r.category := by
      rw [organize_live]
      exact Vibed.loop_moved_dest_in_final fail1 _ _
        (fun s => Vibed.create_hasDir_cat fs s) r hr hm
    rw [organize_live]
    apply Vibed.loop_dirFiles_mono
    rwa [Vibed.create_dirFiles]

/-- Witness for C9 at a concrete input: after a live run over a single
`a.txt`, the file is gone from the top level and still in `Documents`
after a second live run. -/
theorem claim_c09_wit :
    ("a.txt" : String) ∉ (Vibed.organize_downloads ⟨["a.txt"], []⟩ false []).1.files ∧
    "a.txt" ∈ dirFiles (Vibed.organize_downloads
        (Vibed.organize_downloads ⟨["a.txt"], []⟩ false []).1 false []).1.dirs
      "Documents" := by
  have h := claim_c09 [] [] ⟨["a.txt"], []⟩ (by decide)
    ⟨"a.txt", "Documents", "a.txt", true⟩ (by decide) rfl
  exact ⟨h.1, h.2.2⟩

/-- Witness for C3 (amended) at a concrete live run over two files. -/
theorem claim_c03_wit :
    (Vibed.organize_downloads ⟨["a.txt", "b.txt"], []⟩ false []).2.2.Pairwise
      (fun r1 r2 => r1.moved = true → r2.moved = true →
        r1.category = r2.category → r1.destName ≠ r2.destName) :=
  claim_c03 [] ⟨["a.txt", "b.txt"], []⟩

/-- Witness for C5 at a concrete state: the dry run returns it verbatim. -/
theorem claim_c05_wit :
    (Vibed.organize_downloads ⟨["a.txt"], [("Documents", ["x.pdf"])]⟩ true []).1 =
      ⟨["a.txt"], [("Documents", ["x.pdf"])]⟩ :=
  claim_c05 ⟨["a.txt"], [("Documents", ["x.pdf"])]⟩ []

/-- Witness for C6 (amended) at a concrete planned run over two files. -/
theorem claim_c06_wit :
    Planned.total_moved (Planned.organize_downloads []
        ⟨true, ⟨["a.pdf", "b.jpg"], []⟩⟩).moved =
      (Planned.organize_downloads [] ⟨true, ⟨["a.pdf", "b.jpg"], []⟩⟩).moved.length :=
  (claim_c06 [] ⟨true, ⟨["a.pdf", "b.jpg"], []⟩⟩).1

/-- Witness for C8 at a concrete run where `bad.txt` fails to move: both
entries are still processed and the moved-count excludes the failure. -/
theorem claim_c08_wit :
    ((Vibed.organize_downloads ⟨["a.txt", "bad.txt"], []⟩ false ["bad.txt"]).2.2.map
        Vibed.MoveRec.src = ["a.txt", "bad.txt"]) ∧
    Vibed.files_moved ⟨["a.txt", "bad.txt"], []⟩ false ["bad.txt"] = 1 := by
  refine ⟨(claim_c08 ["bad.txt"] ⟨["a.txt", "bad.txt"], []⟩).1, ?_⟩
  rw [(claim_c08 ["bad.txt"] ⟨["a.txt", "bad.txt"], []⟩).2.2.2]
  decide

/-- Witness for C10 at a concrete occupied set. -/
theorem claim_c10_wit :
    Vibed.resolveDest ["a.txt", "a_1.txt"] "a.txt" "a" ".txt" ∉ ["a.txt", "a_1.txt"] :=
  (claim_c10 ["a.txt", "a_1.txt"] "a.txt" "a" ".txt").1
